import Mathlib

/-!
# Verification of `QWindowsPipeWriter` (src/src/corelib/io/qwindowspipewriter.cpp)

Shallow embedding of the asynchronous pipe writer.  The writer coordinates an
owner thread (`write`, `setHandle`, `stop`, signal delivery) with a thread-pool
completion callback; all shared state is protected by one mutex, so each locked
section is modelled as one atomic step on a `PipeWriter` state.

Modelling conventions:
* Win32 error codes are plain `Nat` (`ERROR_SUCCESS = 0`).
* `HANDLE` is `Option Nat`; `none` stands for `INVALID_HANDLE_VALUE`.
* The `QRingBuffer` write buffer is a list of nonempty contiguous segments
  (each `write` appends one segment; `nextDataBlockSize`/`readPointer` expose
  the head segment; `free n` drops `n` bytes from the head; empty appends add
  nothing observable).
* The OS (`WriteFile` / `GetOverlappedResult`) is an oracle: each `WriteFile`
  call consumes one `OsResp`; a completion callback carries the error code and
  transferred byte count reported by `GetOverlappedResult`.
* Ghost observation fields (they mirror no C++ variable and never influence
  control flow): `issued` (chunks handed to `WriteFile`, in order), `confirmed`
  (bytes freed from the buffer head by successful completions), `inflightChunk`
  (the chunk of the pending overlapped operation), `enqueued` (all bytes ever
  passed to `write`), `emitted` (payloads of `bytesWritten` emissions),
  `postedEvents` (queued-but-undelivered `WinEventAct` events), `outstanding`
  (OS operations accepted and not yet completed or canceled), `diagnostics`
  (error codes passed to `qErrnoWarning`), `exact` (false once some successful
  completion reported a byte count different from the requested chunk length;
  `WriteFile` on a pipe always completes a successful write in full), and
  `everCanceled` (true once `stop` canceled an in-flight operation).
-/

def ERROR_SUCCESS : Nat := 0
def ERROR_IO_PENDING : Nat := 997
def ERROR_OPERATION_ABORTED : Nat := 995
def ERROR_NO_DATA : Nat := 232
def ERROR_PIPE_NOT_CONNECTED : Nat := 233

/-- State of a `QWindowsPipeWriter` instance: the C++ member variables that the
claims concern, plus ghost observation fields (see module comment). -/
structure PipeWriter where
  handle : Option Nat
  writeBuffer : List (List Nat)
  pendingBytesWrittenValue : Nat
  lastError : Nat
  stopped : Bool
  writeSequenceStarted : Bool
  bytesWrittenPending : Bool
  winEventActPosted : Bool
  syncEvent : Bool
  issued : List (List Nat)
  confirmed : List Nat
  inflightChunk : List Nat
  enqueued : List Nat
  emitted : List Nat
  postedEvents : Nat
  outstanding : Nat
  diagnostics : List Nat
  exact : Bool
  everCanceled : Bool
  deriving Repr, DecidableEq

/-- The constructor `QWindowsPipeWriter::QWindowsPipeWriter(HANDLE, QObject*)`:
`stopped` starts `true`, everything else cleared. -/
def initWriter (pipeWriteEnd : Option Nat) : PipeWriter :=
  { handle := pipeWriteEnd
    writeBuffer := []
    pendingBytesWrittenValue := 0
    lastError := ERROR_SUCCESS
    stopped := true
    writeSequenceStarted := false
    bytesWrittenPending := false
    winEventActPosted := false
    syncEvent := false
    issued := []
    confirmed := []
    inflightChunk := []
    enqueued := []
    emitted := []
    postedEvents := 0
    outstanding := 0
    diagnostics := []
    exact := true
    everCanceled := false }

/-- Total number of bytes stored in a segmented buffer (`QRingBuffer::size`). -/
def bufSize (b : List (List Nat)) : Nat := (b.map List.length).sum

/-- The byte stream of a segmented buffer, head first. -/
def bufFlat : List (List Nat) → List Nat
  | [] => []
  | s :: rest => s ++ bufFlat rest

/-- `QRingBuffer::append`: adds one contiguous segment at the tail; appending
an empty byte array stores nothing. -/
def bufAppend (b : List (List Nat)) (ba : List Nat) : List (List Nat) :=
  if ba = [] then b else b ++ [ba]

/-- `QRingBuffer::free n`: drops `n` bytes from the head of the buffer. -/
def bufFree : Nat → List (List Nat) → List (List Nat)
  | _, [] => []
  | n, s :: rest =>
    if n = 0 then s :: rest
    else if n < s.length then s.drop n :: rest
    else bufFree (n - s.length) rest

/-- The `switch` in `QWindowsPipeWriter::writeCompleted`: error codes that are
expected terminal conditions and produce no `qErrnoWarning` diagnostic. -/
def isExpectedTerminalError (code : Nat) : Bool :=
  code == ERROR_PIPE_NOT_CONNECTED || code == ERROR_OPERATION_ABORTED ||
    code == ERROR_NO_DATA

/-- `QWindowsPipeWriter::writeCompleted(DWORD errorCode, DWORD numberOfBytesWritten)`.
On success it marks a pending notification, accumulates the byte count and
frees the written bytes from the buffer head; on failure it records the sticky
error, clears the buffer and emits a diagnostic unless the code is an expected
terminal condition.  Returns `true` iff no error occurred. -/
def writeCompleted (w : PipeWriter) (errorCode numberOfBytesWritten : Nat) :
    Bool × PipeWriter :=
  if errorCode = ERROR_SUCCESS then
    (true,
      { w with
        bytesWrittenPending := true
        pendingBytesWrittenValue := w.pendingBytesWrittenValue + numberOfBytesWritten
        writeBuffer := bufFree numberOfBytesWritten w.writeBuffer
        confirmed := w.confirmed ++ (bufFlat w.writeBuffer).take numberOfBytesWritten })
  else
    (false,
      { w with
        lastError := errorCode
        writeBuffer := []
        diagnostics :=
          if isExpectedTerminalError errorCode then w.diagnostics
          else w.diagnostics ++ [errorCode] })

/-- One `WriteFile` outcome: either synchronous completion with a byte count
(`WriteFile` returned `TRUE`), or `FALSE` with a `GetLastError()` code
(`ERROR_IO_PENDING` means the operation was queued). -/
inductive OsResp where
  | syncSuccess (n : Nat)
  | writeError (code : Nat)
  deriving Repr, DecidableEq

/-- Ghost bookkeeping around a call to `writeCompleted` for a completed
operation on `chunk`: record whether a successful completion confirmed exactly
the requested chunk length. -/
def completeOp (w : PipeWriter) (chunk : List Nat) (errorCode n : Nat) :
    Bool × PipeWriter :=
  if errorCode = ERROR_SUCCESS then
    writeCompleted { w with exact := w.exact && (n == chunk.length) } errorCode n
  else
    writeCompleted w errorCode n

/-- The `while (!writeBuffer.isEmpty())` loop of
`QWindowsPipeWriter::startAsyncWriteLocked`: repeatedly hand the head segment
to `WriteFile`; on synchronous completion account for it and continue; on
`ERROR_IO_PENDING` mark the write sequence started and break; on any other
failure account for the error and break.  One oracle entry is consumed per
`WriteFile` call; an exhausted oracle ends the loop (no further OS responses
are modelled). -/
def pumpLoop : PipeWriter → List OsResp → PipeWriter
  | w, [] => w
  | w, r :: rest =>
    match w.writeBuffer with
    | [] => w
    | chunk :: _ =>
      let w1 := { w with issued := w.issued ++ [chunk] }
      match r with
      | OsResp.syncSuccess n =>
        let res := completeOp w1 chunk ERROR_SUCCESS n
        if res.1 then pumpLoop res.2 rest else res.2
      | OsResp.writeError code =>
        if code = ERROR_IO_PENDING then
          { w1 with
            writeSequenceStarted := true
            outstanding := w1.outstanding + 1
            inflightChunk := chunk }
        else
          let res := completeOp w1 chunk code 0
          if res.1 then pumpLoop res.2 rest else res.2

/-- `QWindowsPipeWriter::startAsyncWriteLocked`: the pump loop, then — unless
the operation will complete asynchronously (`bytesWrittenPending` still unset)
— post a single `WinEventAct` event if none is queued and set the sync event. -/
def startAsyncWriteLocked (w : PipeWriter) (os : List OsResp) : PipeWriter :=
  let w1 := pumpLoop w os
  if !w1.bytesWrittenPending then w1
  else
    let w2 :=
      if !w1.winEventActPosted then
        { w1 with winEventActPosted := true, postedEvents := w1.postedEvents + 1 }
      else w1
    { w2 with syncEvent := true }

/-- `QWindowsPipeWriter::writeImpl` (the body of both `write` overloads):
silently drop when poisoned, append to the buffer, return if a write sequence
is already started, mark not-stopped, and pump unless the handle is unset. -/
def writeImpl (w : PipeWriter) (ba : List Nat) (os : List OsResp) : PipeWriter :=
  if w.lastError ≠ ERROR_SUCCESS then w
  else
    let w1 := { w with
      writeBuffer := bufAppend w.writeBuffer ba
      enqueued := w.enqueued ++ ba }
    if w1.writeSequenceStarted then w1
    else
      let w2 := { w1 with stopped := false }
      if w2.handle ≠ none then startAsyncWriteLocked w2 os else w2

/-- Precondition of `QWindowsPipeWriter::setHandle`: the `Q_ASSERT(!stopped)`
at its entry. -/
def setHandlePre (w : PipeWriter) : Prop := w.stopped = false

/-- `QWindowsPipeWriter::setHandle`: assign the handle and pump under lock. -/
def setHandle (w : PipeWriter) (hPipeWriteEnd : Nat) (os : List OsResp) : PipeWriter :=
  startAsyncWriteLocked { w with handle := some hPipeWriteEnd } os

/-- `QWindowsPipeWriter::stop`: return if already stopped; otherwise set
`stopped` and, if a write sequence is running, disable the thread-pool wait
and cancel the outstanding I/O (after `stop` returns,
`WaitForThreadpoolWaitCallbacks` guarantees no callback is in flight). -/
def stop (w : PipeWriter) : PipeWriter :=
  if w.stopped then w
  else
    let w1 := { w with stopped := true }
    if w1.writeSequenceStarted then
      { w1 with
        writeSequenceStarted := false
        outstanding := w1.outstanding - 1
        inflightChunk := []
        everCanceled := true }
    else w1

/-- `QWindowsPipeWriter::bytesToWrite`. -/
def bytesToWrite (w : PipeWriter) : Nat :=
  bufSize w.writeBuffer + w.pendingBytesWrittenValue

/-- `QWindowsPipeWriter::waitCallback` (after `GetOverlappedResult`, whose
reported error code and byte count are `code` and `n`): return without side
effects if stopped; otherwise clear the write-sequence marker, account for the
completion, and on success re-enter the pump, on failure set the sync event. -/
def waitCallback (w : PipeWriter) (code n : Nat) (os : List OsResp) : PipeWriter :=
  if w.stopped then w
  else
    let chunk := w.inflightChunk
    let w0 := { w with
      writeSequenceStarted := false
      outstanding := w.outstanding - 1
      inflightChunk := [] }
    let res := completeOp w0 chunk code n
    if res.1 then startAsyncWriteLocked res.2 os
    else { res.2 with syncEvent := true }

/-- `QWindowsPipeWriter::consumePendingAndEmit(bool allowWinActPosting)`:
reset the sync event, re-enable event posting when asked, and if a pending
count exists, zero it (before the emit point) and emit `bytesWritten` unless
stopped.  Returns whether `bytesWritten` was emitted. -/
def consumePendingAndEmit (w : PipeWriter) (allowWinActPosting : Bool) :
    Bool × PipeWriter :=
  let w0 := { w with syncEvent := false }
  let w1 := if allowWinActPosting then { w0 with winEventActPosted := false } else w0
  if !w1.bytesWrittenPending then (false, w1)
  else
    let numberOfBytesWritten := w1.pendingBytesWrittenValue
    let w2 := { w1 with bytesWrittenPending := false, pendingBytesWrittenValue := 0 }
    if w2.stopped then (false, w2)
    else (true, { w2 with emitted := w2.emitted ++ [numberOfBytesWritten] })

/-- Steps of the writer protocol, at the granularity of one locked section.
`callback` carries the `GetOverlappedResult` outcome; `write`, `setHandle` and
`callback` carry the `WriteFile` oracle for the pump they may run.  `consume`
is a direct `consumePendingAndEmit(false)` call (a waiting thread);
`deliverEvent` is the owner thread dispatching one queued `WinEventAct` event
to `event()`, which calls `consumePendingAndEmit(true)`. -/
inductive Ev where
  | write (ba : List Nat) (os : List OsResp)
  | setHandle (h : Nat) (os : List OsResp)
  | callback (code n : Nat) (os : List OsResp)
  | stop
  | consume
  | deliverEvent
  deriving Repr, DecidableEq

/-- One protocol step.  Guards model when a step can occur at all: a
completion callback fires only for a pending overlapped operation;
`setHandle` respects its `Q_ASSERT(!stopped)` and the documented one-time
deferred assignment (it is called only while the handle is still unset);
`deliverEvent` consumes one queued `WinEventAct` event.  A step whose guard
fails leaves the state unchanged. -/
def step (w : PipeWriter) (e : Ev) : PipeWriter :=
  match e with
  | Ev.write ba os => writeImpl w ba os
  | Ev.setHandle h os =>
    if w.stopped = false ∧ w.handle = none then setHandle w h os else w
  | Ev.callback code n os =>
    if w.writeSequenceStarted then waitCallback w code n os else w
  | Ev.stop => stop w
  | Ev.consume => (consumePendingAndEmit w false).2
  | Ev.deliverEvent =>
    if 0 < w.postedEvents then
      (consumePendingAndEmit { w with postedEvents := w.postedEvents - 1 } true).2
    else w

/-- Run a sequence of protocol steps. -/
def run (w : PipeWriter) (evs : List Ev) : PipeWriter := evs.foldl step w

/-- A state is reachable if some step sequence produces it from a freshly
constructed writer (with or without an initial handle). -/
def Reachable (w : PipeWriter) : Prop :=
  ∃ (h : Option Nat) (evs : List Ev), run (initWriter h) evs = w

/-! ## Buffer lemmas -/

theorem bufFlat_append (a b : List (List Nat)) :
    bufFlat (a ++ b) = bufFlat a ++ bufFlat b := by
  induction a with
  | nil => simp [bufFlat]
  | cons s rest ih => simp [bufFlat, ih]

theorem bufFlat_bufAppend (b : List (List Nat)) (ba : List Nat) :
    bufFlat (bufAppend b ba) = bufFlat b ++ ba := by
  unfold bufAppend
  by_cases h : ba = []
  · simp [h]
  · simp [h, bufFlat_append, bufFlat]

theorem bufAppend_cons (s : List Nat) (rest : List (List Nat)) (ba : List Nat) :
    ∃ rest2, bufAppend (s :: rest) ba = s :: rest2 := by
  unfold bufAppend
  by_cases h : ba = [] <;> simp [h]

theorem bufAppend_segs_nonempty (b : List (List Nat)) (ba : List Nat)
    (h : ∀ s ∈ b, s ≠ []) : ∀ s ∈ bufAppend b ba, s ≠ [] := by
  intro t ht
  unfold bufAppend at ht
  by_cases hba : ba = []
  · exact h t (by simpa [hba] using ht)
  · simp [hba] at ht
    rcases ht with ht | ht
    · exact h t ht
    · simpa [ht] using hba

theorem bufFlat_bufFree (n : Nat) (b : List (List Nat)) :
    bufFlat (bufFree n b) = (bufFlat b).drop n := by
  induction b generalizing n with
  | nil => simp [bufFree, bufFlat]
  | cons s rest ih =>
    unfold bufFree
    by_cases h0 : n = 0
    · simp [h0]
    · by_cases hlt : n < s.length
      · simp only [h0, if_false, hlt, if_true, bufFlat]
        exact (List.drop_append_of_le_length (le_of_lt hlt)).symm
      · simp only [h0, if_false, hlt, if_true, bufFlat, ih]
        rw [List.drop_append_eq_append_drop,
          List.drop_eq_nil_of_le (Nat.le_of_not_lt hlt)]
        simp

theorem bufFree_segs_nonempty (n : Nat) (b : List (List Nat))
    (h : ∀ s ∈ b, s ≠ []) : ∀ s ∈ bufFree n b, s ≠ [] := by
  induction b generalizing n with
  | nil => simp [bufFree]
  | cons s rest ih =>
    intro t ht
    unfold bufFree at ht
    by_cases h0 : n = 0
    · simp only [h0, if_true] at ht
      exact h t ht
    · by_cases hlt : n < s.length
      · simp only [h0, if_false, hlt, if_true, List.mem_cons] at ht
        rcases ht with ht | ht
        · subst ht
          have hlen : 0 < (s.drop n).length := by
            simp only [List.length_drop]
            omega
          exact List.ne_nil_of_length_pos hlen
        · exact h t (List.mem_cons_of_mem _ ht)
      · simp only [h0, if_false, hlt] at ht
        exact ih (n - s.length) (fun u hu => h u (List.mem_cons_of_mem _ hu)) t ht

/-! ## The writer invariant -/

/-- State invariant of the writer, preserved by every protocol step.
`issued_acct` and `enq_acct` are the byte-accounting facts behind the ordering
guarantee; the rest tie the write-sequence flag to the outstanding-operation
count, the queued-notification count, the poisoned state and the buffer. -/
structure WriterInv (w : PipeWriter) : Prop where
  outstanding_eq : w.outstanding = if w.writeSequenceStarted then 1 else 0
  posted_le : w.postedEvents ≤ 1
  posted_of_flag : w.winEventActPosted = false → w.postedEvents = 0
  poisoned_drained : w.lastError ≠ ERROR_SUCCESS →
    w.writeBuffer = [] ∧ w.writeSequenceStarted = false
  no_handle_ok : w.handle = none → w.lastError = ERROR_SUCCESS
  no_handle_no_seq : w.handle = none → w.writeSequenceStarted = false
  seq_not_stopped : w.writeSequenceStarted = true → w.stopped = false
  no_seq_no_inflight : w.writeSequenceStarted = false → w.inflightChunk = []
  seq_inflight_head : w.writeSequenceStarted = true →
    ∃ rest, w.writeBuffer = w.inflightChunk :: rest ∧ w.inflightChunk ≠ []
  segs_nonempty : ∀ s ∈ w.writeBuffer, s ≠ []
  issued_acct : w.exact = true → w.lastError = ERROR_SUCCESS →
    w.everCanceled = false → bufFlat w.issued = w.confirmed ++ w.inflightChunk
  enq_acct : w.lastError = ERROR_SUCCESS →
    w.confirmed ++ bufFlat w.writeBuffer = w.enqueued

theorem writerInv_initWriter (h : Option Nat) : WriterInv (initWriter h) := by
  constructor <;> simp [initWriter, bufFlat, ERROR_SUCCESS]

/-! ## Invariant preservation helpers -/

theorem writerInv_success_state (v : PipeWriter) (chunk : List Nat)
    (rest' : List (List Nat)) (n : Nat)
    (hseq : v.writeSequenceStarted = false)
    (hinf : v.inflightChunk = [])
    (hbuf : v.writeBuffer = chunk :: rest')
    (hsegs : ∀ s ∈ v.writeBuffer, s ≠ [])
    (hout : v.outstanding = 0)
    (hple : v.postedEvents ≤ 1)
    (hpfl : v.winEventActPosted = false → v.postedEvents = 0)
    (herr : v.lastError = ERROR_SUCCESS)
    (hiss : v.exact = true → v.everCanceled = false →
      bufFlat v.issued = v.confirmed ++ chunk)
    (henq : v.confirmed ++ bufFlat v.writeBuffer = v.enqueued) :
    WriterInv { v with
      exact := v.exact && (n == chunk.length)
      bytesWrittenPending := true
      pendingBytesWrittenValue := v.pendingBytesWrittenValue + n
      writeBuffer := bufFree n v.writeBuffer
      confirmed := v.confirmed ++ (bufFlat v.writeBuffer).take n } where
  outstanding_eq := by simp [hseq, hout]
  posted_le := hple
  posted_of_flag := hpfl
  poisoned_drained := by intro hc; exact absurd herr hc
  no_handle_ok := fun _ => herr
  no_handle_no_seq := fun _ => hseq
  seq_not_stopped := by simp [hseq]
  no_seq_no_inflight := fun _ => hinf
  seq_inflight_head := by simp [hseq]
  segs_nonempty := by
    simpa using bufFree_segs_nonempty n v.writeBuffer hsegs
  issued_acct := by
    intro hex herr2 hcanc
    simp only [Bool.and_eq_true_iff, beq_iff_eq] at hex
    rcases hex with ⟨hex1, hlen2⟩
    simp only [hinf, List.append_nil]
    rw [hiss hex1 hcanc, hbuf]
    simp only [bufFlat, hlen2]
    rw [List.take_append_of_le_length (le_refl chunk.length), List.take_length]
  enq_acct := by
    intro _
    simp only
    rw [bufFlat_bufFree, List.append_assoc, List.take_append_drop, henq]

theorem writerInv_pending_state (v : PipeWriter) (chunk : List Nat)
    (rest' : List (List Nat))
    (hseq : v.writeSequenceStarted = false)
    (hstop : v.stopped = false)
    (hinf : v.inflightChunk = [])
    (hbuf : v.writeBuffer = chunk :: rest')
    (hsegs : ∀ s ∈ v.writeBuffer, s ≠ [])
    (hout : v.outstanding = 0)
    (hple : v.postedEvents ≤ 1)
    (hpfl : v.winEventActPosted = false → v.postedEvents = 0)
    (hhandle : v.handle ≠ none)
    (herr : v.lastError = ERROR_SUCCESS)
    (hiss : v.exact = true → v.everCanceled = false →
      bufFlat v.issued = v.confirmed ++ chunk)
    (henq : v.confirmed ++ bufFlat v.writeBuffer = v.enqueued) :
    WriterInv { v with
      writeSequenceStarted := true
      outstanding := v.outstanding + 1
      inflightChunk := chunk } where
  outstanding_eq := by simp [hout]
  posted_le := hple
  posted_of_flag := hpfl
  poisoned_drained := by intro hc; exact absurd herr hc
  no_handle_ok := fun _ => herr
  no_handle_no_seq := by intro hc; exact absurd hc hhandle
  seq_not_stopped := fun _ => hstop
  no_seq_no_inflight := by simp
  seq_inflight_head := by
    intro _
    refine ⟨rest', hbuf, ?_⟩
    exact hsegs chunk (hbuf ▸ List.mem_cons_self chunk rest')
  segs_nonempty := by simpa using hsegs
  issued_acct := fun hex _ hcanc => hiss hex hcanc
  enq_acct := fun _ => henq

theorem writerInv_error_state (v : PipeWriter) (code : Nat) (d : List Nat)
    (hcode : code ≠ ERROR_SUCCESS)
    (hseq : v.writeSequenceStarted = false)
    (hinf : v.inflightChunk = [])
    (hout : v.outstanding = 0)
    (hple : v.postedEvents ≤ 1)
    (hpfl : v.winEventActPosted = false → v.postedEvents = 0)
    (hhandle : v.handle ≠ none) :
    WriterInv { v with lastError := code, writeBuffer := [], diagnostics := d } where
  outstanding_eq := by simp [hseq, hout]
  posted_le := hple
  posted_of_flag := hpfl
  poisoned_drained := fun _ => ⟨rfl, hseq⟩
  no_handle_ok := by intro hc; exact absurd hc hhandle
  no_handle_no_seq := fun _ => hseq
  seq_not_stopped := by simp [hseq]
  no_seq_no_inflight := fun _ => hinf
  seq_inflight_head := by simp [hseq]
  segs_nonempty := by simp
  issued_acct := by intro _ herr2 _; exact absurd herr2 hcode
  enq_acct := by intro herr2; exact absurd herr2 hcode

theorem completeOp_success_eq (v : PipeWriter) (chunk : List Nat) (n : Nat) :
    completeOp v chunk ERROR_SUCCESS n =
      (true, { v with
        exact := v.exact && (n == chunk.length)
        bytesWrittenPending := true
        pendingBytesWrittenValue := v.pendingBytesWrittenValue + n
        writeBuffer := bufFree n v.writeBuffer
        confirmed := v.confirmed ++ (bufFlat v.writeBuffer).take n }) := by
  simp [completeOp, writeCompleted]

theorem completeOp_error_eq (v : PipeWriter) (chunk : List Nat) (code n : Nat)
    (hc : code ≠ ERROR_SUCCESS) :
    completeOp v chunk code n =
      (false, { v with
        lastError := code
        writeBuffer := []
        diagnostics :=
          if isExpectedTerminalError code then v.diagnostics
          else v.diagnostics ++ [code] }) := by
  simp [completeOp, writeCompleted, hc]

/-- The pump loop preserves the writer invariant when entered as the code
enters it: under the lock, with no write sequence started, not stopped, a
valid handle and no recorded error. -/
theorem pumpLoop_inv : ∀ (os : List OsResp) (w : PipeWriter),
    WriterInv w → w.writeSequenceStarted = false → w.stopped = false →
    w.handle ≠ none → w.lastError = ERROR_SUCCESS →
    WriterInv (pumpLoop w os) := by
  intro os
  induction os with
  | nil =>
    intro w hInv _ _ _ _
    simpa [pumpLoop] using hInv
  | cons r rest ih =>
    intro w hInv hseq hstop hh herr
    have hinf : w.inflightChunk = [] := hInv.no_seq_no_inflight hseq
    have hout : w.outstanding = 0 := by
      rw [hInv.outstanding_eq, hseq]; rfl
    cases hbuf : w.writeBuffer with
    | nil =>
      rw [pumpLoop, hbuf]
      exact hInv
    | cons chunk rest' =>
      have hiss1 : w.exact = true → w.everCanceled = false →
          bufFlat (w.issued ++ [chunk]) = w.confirmed ++ chunk := by
        intro hex hcanc
        rw [bufFlat_append, hInv.issued_acct hex herr hcanc, hinf]
        simp [bufFlat]
      have hW1 := fun n => writerInv_success_state
        { w with issued := w.issued ++ [chunk] } chunk rest' n
        hseq hinf hbuf hInv.segs_nonempty hout hInv.posted_le
        hInv.posted_of_flag herr hiss1 (hInv.enq_acct herr)
      cases r with
      | syncSuccess n =>
        rw [pumpLoop, hbuf]
        simp only [completeOp_success_eq]
        refine ih _ (by simpa [hbuf] using hW1 n) ?_ ?_ ?_ ?_ <;> simp [hstop, hseq, hh, herr]
      | writeError code =>
        rw [pumpLoop, hbuf]
        by_cases hpend : code = ERROR_IO_PENDING
        · simp only [hpend, if_pos rfl]
          simpa [hbuf] using writerInv_pending_state
            { w with issued := w.issued ++ [chunk] } chunk rest'
            hseq hstop hinf hbuf hInv.segs_nonempty hout hInv.posted_le
            hInv.posted_of_flag hh herr hiss1 (hInv.enq_acct herr)
        · simp only [hpend, if_neg hpend, if_false]
          by_cases hzero : code = ERROR_SUCCESS
          · subst hzero
            simp only [completeOp_success_eq]
            refine ih _ (by simpa [hbuf] using hW1 0) ?_ ?_ ?_ ?_ <;>
              simp [hstop, hseq, hh, herr]
          · simp only [completeOp_error_eq _ _ _ _ hzero]
            exact writerInv_error_state
              { w with issued := w.issued ++ [chunk] } code _
              hzero hseq hinf hout hInv.posted_le hInv.posted_of_flag hh

/-- Changing only the fields the invariant never mentions (sync event, pending
notification flag and count, emitted trace) preserves the invariant. -/
theorem writerInv_scratch (w : PipeWriter) (hInv : WriterInv w)
    (se bw : Bool) (pv : Nat) (em : List Nat) :
    WriterInv { w with
      syncEvent := se
      bytesWrittenPending := bw
      pendingBytesWrittenValue := pv
      emitted := em } :=
  ⟨hInv.outstanding_eq, hInv.posted_le, hInv.posted_of_flag,
    hInv.poisoned_drained, hInv.no_handle_ok, hInv.no_handle_no_seq,
    hInv.seq_not_stopped, hInv.no_seq_no_inflight, hInv.seq_inflight_head,
    hInv.segs_nonempty, hInv.issued_acct, hInv.enq_acct⟩

/-- As `writerInv_scratch`, additionally clearing the notification-posted flag,
which is sound exactly when no posted event remains queued. -/
theorem writerInv_scratch_flag (w : PipeWriter) (hInv : WriterInv w)
    (hpz : w.postedEvents = 0) (se bw : Bool) (pv : Nat) (em : List Nat) :
    WriterInv { w with
      winEventActPosted := false
      syncEvent := se
      bytesWrittenPending := bw
      pendingBytesWrittenValue := pv
      emitted := em } :=
  ⟨hInv.outstanding_eq, hInv.posted_le, fun _ => hpz,
    hInv.poisoned_drained, hInv.no_handle_ok, hInv.no_handle_no_seq,
    hInv.seq_not_stopped, hInv.no_seq_no_inflight, hInv.seq_inflight_head,
    hInv.segs_nonempty, hInv.issued_acct, hInv.enq_acct⟩

theorem startAsyncWriteLocked_inv (w : PipeWriter) (os : List OsResp)
    (hInv : WriterInv w) (hseq : w.writeSequenceStarted = false)
    (hstop : w.stopped = false) (hh : w.handle ≠ none)
    (herr : w.lastError = ERROR_SUCCESS) :
    WriterInv (startAsyncWriteLocked w os) := by
  have h1 := pumpLoop_inv os w hInv hseq hstop hh herr
  unfold startAsyncWriteLocked
  set w1 := pumpLoop w os with hw1
  by_cases hbp : w1.bytesWrittenPending
  · simp only [hbp, Bool.not_true, Bool.false_eq_true, if_false]
    by_cases hfl : w1.winEventActPosted
    · simp only [hfl, Bool.not_true, Bool.false_eq_true, if_false]
      exact ⟨h1.outstanding_eq, h1.posted_le, fun hc => Bool.noConfusion hc,
        h1.poisoned_drained, h1.no_handle_ok, h1.no_handle_no_seq,
        h1.seq_not_stopped, h1.no_seq_no_inflight, h1.seq_inflight_head,
        h1.segs_nonempty, h1.issued_acct, h1.enq_acct⟩
    · have hfl2 : w1.winEventActPosted = false := by
        simpa using hfl
      have hpz : w1.postedEvents = 0 := h1.posted_of_flag hfl2
      simp only [hfl2, Bool.not_false, if_true]
      exact ⟨h1.outstanding_eq, by simp [hpz], fun hc => Bool.noConfusion hc,
        h1.poisoned_drained, h1.no_handle_ok, h1.no_handle_no_seq,
        h1.seq_not_stopped, h1.no_seq_no_inflight, h1.seq_inflight_head,
        h1.segs_nonempty, h1.issued_acct, h1.enq_acct⟩
  · have hbp2 : w1.bytesWrittenPending = false := by simpa using hbp
    simp only [hbp2, Bool.not_false, if_true]
    exact h1

/-- Appending one `write` payload to the buffer (and optionally clearing the
stopped flag) preserves the invariant while no error is recorded. -/
theorem writerInv_append (w : PipeWriter) (ba : List Nat) (st : Bool)
    (hInv : WriterInv w) (herr : w.lastError = ERROR_SUCCESS)
    (hst : w.writeSequenceStarted = true → st = false) :
    WriterInv { w with
      writeBuffer := bufAppend w.writeBuffer ba
      enqueued := w.enqueued ++ ba
      stopped := st } where
  outstanding_eq := hInv.outstanding_eq
  posted_le := hInv.posted_le
  posted_of_flag := hInv.posted_of_flag
  poisoned_drained := by intro hc; exact absurd herr hc
  no_handle_ok := fun _ => herr
  no_handle_no_seq := hInv.no_handle_no_seq
  seq_not_stopped := hst
  no_seq_no_inflight := hInv.no_seq_no_inflight
  seq_inflight_head := by
    intro hq
    obtain ⟨rest, hb, hne⟩ := hInv.seq_inflight_head hq
    obtain ⟨rest2, hb2⟩ := bufAppend_cons w.inflightChunk rest ba
    exact ⟨rest2, by simp only [hb, hb2], hne⟩
  segs_nonempty := by
    simpa using bufAppend_segs_nonempty w.writeBuffer ba hInv.segs_nonempty
  issued_acct := hInv.issued_acct
  enq_acct := by
    intro _
    simp only [bufFlat_bufAppend, ← List.append_assoc]
    rw [hInv.enq_acct herr]

theorem writeImpl_inv (w : PipeWriter) (ba : List Nat) (os : List OsResp)
    (hInv : WriterInv w) : WriterInv (writeImpl w ba os) := by
  unfold writeImpl
  by_cases herr : w.lastError ≠ ERROR_SUCCESS
  · rw [if_pos herr]
    exact hInv
  · push_neg at herr
    rw [if_neg (by simp [herr])]
    by_cases hseq : w.writeSequenceStarted = true
    · rw [if_pos hseq]
      exact writerInv_append w ba w.stopped hInv herr
        (fun _ => hInv.seq_not_stopped hseq)
    · have hseq2 : w.writeSequenceStarted = false := by simpa using hseq
      rw [if_neg hseq]
      by_cases hh : w.handle = none
      · rw [if_neg (by simp [hh])]
        exact writerInv_append w ba false hInv herr (fun _ => rfl)
      · rw [if_pos hh]
        exact startAsyncWriteLocked_inv _ os
          (writerInv_append w ba false hInv herr (fun _ => rfl))
          hseq2 rfl hh herr

theorem setHandle_inv (w : PipeWriter) (h : Nat) (os : List OsResp)
    (hInv : WriterInv w) (hstop : w.stopped = false) (hh : w.handle = none) :
    WriterInv (setHandle w h os) := by
  have hseq : w.writeSequenceStarted = false := hInv.no_handle_no_seq hh
  have herr : w.lastError = ERROR_SUCCESS := hInv.no_handle_ok hh
  unfold setHandle
  exact startAsyncWriteLocked_inv _ os
    ⟨hInv.outstanding_eq, hInv.posted_le, hInv.posted_of_flag,
      fun hc => absurd herr hc, fun _ => herr, fun _ => hseq,
      hInv.seq_not_stopped, hInv.no_seq_no_inflight, hInv.seq_inflight_head,
      hInv.segs_nonempty, hInv.issued_acct, hInv.enq_acct⟩
    hseq hstop (by simp) herr

theorem stop_inv (w : PipeWriter) (hInv : WriterInv w) : WriterInv (stop w) := by
  unfold stop
  by_cases hst : w.stopped = true
  · rw [if_pos hst]
    exact hInv
  · rw [if_neg hst]
    by_cases hseq : w.writeSequenceStarted = true
    · have herr : w.lastError = ERROR_SUCCESS := by
        by_contra hc
        exact absurd hseq (by simp [(hInv.poisoned_drained hc).2])
      have hout : w.outstanding = 1 := by
        rw [hInv.outstanding_eq, hseq]
        rfl
      rw [if_pos hseq]
      exact ⟨by simp [hout], hInv.posted_le, hInv.posted_of_flag,
        fun hc => absurd herr hc, hInv.no_handle_ok, fun _ => rfl,
        fun hc => Bool.noConfusion hc, fun _ => rfl,
        fun hc => Bool.noConfusion hc, hInv.segs_nonempty,
        fun _ _ hc => Bool.noConfusion hc, hInv.enq_acct⟩
    · rw [if_neg hseq]
      exact ⟨hInv.outstanding_eq, hInv.posted_le, hInv.posted_of_flag,
        hInv.poisoned_drained, hInv.no_handle_ok, hInv.no_handle_no_seq,
        fun hc => absurd hc hseq, hInv.no_seq_no_inflight,
        hInv.seq_inflight_head, hInv.segs_nonempty, hInv.issued_acct,
        hInv.enq_acct⟩

theorem waitCallback_inv (w : PipeWriter) (code n : Nat) (os : List OsResp)
    (hInv : WriterInv w) (hseq : w.writeSequenceStarted = true) :
    WriterInv (waitCallback w code n os) := by
  have hstop : w.stopped = false := hInv.seq_not_stopped hseq
  have herr : w.lastError = ERROR_SUCCESS := by
    by_contra hc
    exact absurd hseq (by simp [(hInv.poisoned_drained hc).2])
  obtain ⟨rest', hbuf, hne⟩ := hInv.seq_inflight_head hseq
  have hout : w.outstanding = 1 := by
    rw [hInv.outstanding_eq, hseq]
    rfl
  have hh : w.handle ≠ none := by
    intro hc
    exact absurd hseq (by simp [hInv.no_handle_no_seq hc])
  unfold waitCallback
  rw [if_neg (by simp [hstop])]
  have HR := writerInv_success_state
    { w with
        writeSequenceStarted := false
        outstanding := w.outstanding - 1
        inflightChunk := [] }
    w.inflightChunk rest'
  by_cases hzero : code = ERROR_SUCCESS
  · subst hzero
    simp only [completeOp_success_eq]
    refine startAsyncWriteLocked_inv _ os ?_ (by simp) (by simp [hstop])
      (by simp [hh]) (by simp [herr])
    refine HR n rfl rfl (by simpa using hbuf)
      (by simpa using hInv.segs_nonempty) (by simp [hout]) hInv.posted_le
      hInv.posted_of_flag herr ?_ (by simpa using hInv.enq_acct herr)
    intro hex hcanc
    simpa using hInv.issued_acct (by simpa using hex) herr (by simpa using hcanc)
  · simp only [completeOp_error_eq _ _ _ _ hzero]
    have herrInv := writerInv_error_state
      { w with
          writeSequenceStarted := false
          outstanding := w.outstanding - 1
          inflightChunk := [] }
      code (if isExpectedTerminalError code then w.diagnostics
        else w.diagnostics ++ [code])
      hzero rfl rfl (by simp [hout]) hInv.posted_le hInv.posted_of_flag
      (by simp [hh])
    exact ⟨herrInv.outstanding_eq, herrInv.posted_le, herrInv.posted_of_flag,
      herrInv.poisoned_drained, herrInv.no_handle_ok, herrInv.no_handle_no_seq,
      herrInv.seq_not_stopped, herrInv.no_seq_no_inflight,
      herrInv.seq_inflight_head, herrInv.segs_nonempty, herrInv.issued_acct,
      herrInv.enq_acct⟩

theorem consumePendingAndEmit_inv (w : PipeWriter) (a : Bool)
    (hInv : WriterInv w) (hpz : a = true → w.postedEvents = 0) :
    WriterInv (consumePendingAndEmit w a).2 := by
  unfold consumePendingAndEmit
  cases a with
  | false =>
    simp only [Bool.false_eq_true, if_false]
    split
    · exact writerInv_scratch w hInv false w.bytesWrittenPending
        w.pendingBytesWrittenValue w.emitted
    · split
      · exact writerInv_scratch w hInv false false 0 w.emitted
      · exact writerInv_scratch w hInv false false 0
          (w.emitted ++ [w.pendingBytesWrittenValue])
  | true =>
    simp only [eq_self_iff_true, if_true]
    split
    · exact writerInv_scratch_flag w hInv (hpz rfl) false w.bytesWrittenPending
        w.pendingBytesWrittenValue w.emitted
    · split
      · exact writerInv_scratch_flag w hInv (hpz rfl) false false 0 w.emitted
      · exact writerInv_scratch_flag w hInv (hpz rfl) false false 0
          (w.emitted ++ [w.pendingBytesWrittenValue])

/-- Every protocol step preserves the writer invariant. -/
theorem step_inv (w : PipeWriter) (e : Ev) (hInv : WriterInv w) :
    WriterInv (step w e) := by
  cases e with
  | write ba os => exact writeImpl_inv w ba os hInv
  | setHandle h os =>
    simp only [step]
    split
    · next hc => exact setHandle_inv w h os hInv hc.1 hc.2
    · exact hInv
  | callback code n os =>
    simp only [step]
    split
    · next hc => exact waitCallback_inv w code n os hInv hc
    · exact hInv
  | stop => exact stop_inv w hInv
  | consume =>
    exact consumePendingAndEmit_inv w false hInv (fun hc => Bool.noConfusion hc)
  | deliverEvent =>
    simp only [step]
    split
    · have hwd : WriterInv { w with postedEvents := w.postedEvents - 1 } :=
        ⟨hInv.outstanding_eq,
          show w.postedEvents - 1 ≤ 1 by have := hInv.posted_le; omega,
          fun hf => show w.postedEvents - 1 = 0 by
            have := hInv.posted_of_flag hf; omega,
          hInv.poisoned_drained, hInv.no_handle_ok, hInv.no_handle_no_seq,
          hInv.seq_not_stopped, hInv.no_seq_no_inflight,
          hInv.seq_inflight_head, hInv.segs_nonempty, hInv.issued_acct,
          hInv.enq_acct⟩
      exact consumePendingAndEmit_inv _ true hwd
        (fun _ => show w.postedEvents - 1 = 0 by
          have := hInv.posted_le; omega)
    · exact hInv

theorem run_inv (evs : List Ev) (w : PipeWriter) (hInv : WriterInv w) :
    WriterInv (run w evs) := by
  induction evs generalizing w with
  | nil => simpa [run] using hInv
  | cons e rest ih =>
    have hr : run w (e :: rest) = run (step w e) rest := by
      simp [run]
    rw [hr]
    exact ih (step w e) (step_inv w e hInv)

/-- Every reachable writer state satisfies the invariant. -/
theorem reachable_inv (w : PipeWriter) (h : Reachable w) : WriterInv w := by
  obtain ⟨h0, evs, hrun⟩ := h
  exact hrun ▸ run_inv evs (initWriter h0) (writerInv_initWriter h0)

/-! ## Auxiliary facts about the operations -/

theorem pumpLoop_stopped : ∀ (os : List OsResp) (w : PipeWriter),
    (pumpLoop w os).stopped = w.stopped := by
  intro os
  induction os with
  | nil => intro w; rfl
  | cons r rest ih =>
    intro w
    cases hbuf : w.writeBuffer with
    | nil => rw [pumpLoop, hbuf]
    | cons chunk rest' =>
      cases r with
      | syncSuccess n =>
        rw [pumpLoop, hbuf]
        simp only [completeOp_success_eq]
        rw [if_pos trivial, ih]
      | writeError code =>
        rw [pumpLoop, hbuf]
        by_cases hpend : code = ERROR_IO_PENDING
        · simp only [hpend, if_pos rfl]
          rw [if_pos trivial]
        · simp only [hpend, if_neg hpend, if_false]
          by_cases hzero : code = ERROR_SUCCESS
          · subst hzero
            simp only [completeOp_success_eq]
            rw [if_pos trivial, ih]
          · simp only [completeOp_error_eq _ _ _ _ hzero]
            rw [if_neg Bool.false_ne_true]

theorem startAsyncWriteLocked_stopped (w : PipeWriter) (os : List OsResp) :
    (startAsyncWriteLocked w os).stopped = w.stopped := by
  simp only [startAsyncWriteLocked]
  split
  · exact pumpLoop_stopped os w
  · split <;> simpa using pumpLoop_stopped os w

/-- After any `consumePendingAndEmit` call the pending-notification flag is
clear: the pending state is reset before the emit point. -/
theorem consumePendingAndEmit_clears_pending (w : PipeWriter) (a : Bool) :
    (consumePendingAndEmit w a).2.bytesWrittenPending = false ∧
    ((consumePendingAndEmit w a).2.bytesWrittenPending = false ∧
      (consumePendingAndEmit w a).1 = true →
      (consumePendingAndEmit w a).2.pendingBytesWrittenValue = 0) := by
  unfold consumePendingAndEmit
  cases a <;>
    simp only [Bool.false_eq_true, if_false, eq_self_iff_true, if_true] <;>
    split
  · next hbp => simpa using hbp
  · split <;> simp
  · next hbp => simpa using hbp
  · split <;> simp

/-- A `consumePendingAndEmit` call that finds no pending count returns `false`
and emits nothing. -/
theorem consumePendingAndEmit_of_no_pending (w : PipeWriter) (a : Bool)
    (hbp : w.bytesWrittenPending = false) :
    (consumePendingAndEmit w a).1 = false ∧
    (consumePendingAndEmit w a).2.emitted = w.emitted := by
  unfold consumePendingAndEmit
  cases a <;>
    simp [hbp]

/-! ## The claims -/

/-- C1: For every sequence of write, setHandle, stop and completion-callback
steps, at most one write operation is ever outstanding on the writer: the
outstanding-operation count of every reachable state is at most 1 (it is 1
exactly while `writeSequenceStarted` is set), and `write` does not hand any
new chunk to the OS while `writeSequenceStarted` is set (the pump loop itself
breaks as soon as an operation is left pending, as `pumpLoop` returns at
`ERROR_IO_PENDING` without recursing). -/
theorem claim1_single_outstanding_write (w : PipeWriter) (hw : Reachable w) :
    w.outstanding ≤ 1 ∧
    (w.outstanding = if w.writeSequenceStarted then 1 else 0) ∧
    (∀ (ba : List Nat) (os : List OsResp), w.writeSequenceStarted = true →
      (writeImpl w ba os).issued = w.issued) := by
  have hInv := reachable_inv w hw
  refine ⟨?_, hInv.outstanding_eq, ?_⟩
  · rw [hInv.outstanding_eq]
    split <;> omega
  · intro ba os hseq
    unfold writeImpl
    by_cases herr : w.lastError ≠ ERROR_SUCCESS
    · rw [if_pos herr]
    · push_neg at herr
      rw [if_neg (by simp [herr]), if_pos hseq]

theorem claim1_witness :
    (run (initWriter (some 0))
      [Ev.write [1, 2] [OsResp.writeError ERROR_IO_PENDING]]).outstanding ≤ 1 :=
  (claim1_single_outstanding_write
    (run (initWriter (some 0)) [Ev.write [1, 2] [OsResp.writeError ERROR_IO_PENDING]])
    ⟨some 0, [Ev.write [1, 2] [OsResp.writeError ERROR_IO_PENDING]], rfl⟩).1

/-- C2: whenever `lastError` is not `ERROR_SUCCESS` (the writer is poisoned),
the write buffer is empty and no operation is outstanding, and every
subsequent `write` call returns the state completely unchanged (no error is
surfaced: `writeImpl` just returns). -/
theorem claim2_poisoned_writer (w : PipeWriter) (hw : Reachable w)
    (herr : w.lastError ≠ ERROR_SUCCESS) :
    w.writeBuffer = [] ∧ w.outstanding = 0 ∧ w.writeSequenceStarted = false ∧
    ∀ (ba : List Nat) (os : List OsResp), writeImpl w ba os = w := by
  have hInv := reachable_inv w hw
  obtain ⟨hbuf, hseq⟩ := hInv.poisoned_drained herr
  refine ⟨hbuf, ?_, hseq, ?_⟩
  · rw [hInv.outstanding_eq, hseq]
    rfl
  · intro ba os
    unfold writeImpl
    rw [if_pos herr]

theorem claim2_witness :
    (run (initWriter (some 0))
      [Ev.write [1] [OsResp.writeError ERROR_PIPE_NOT_CONNECTED]]).writeBuffer = [] ∧
    writeImpl (run (initWriter (some 0))
      [Ev.write [1] [OsResp.writeError ERROR_PIPE_NOT_CONNECTED]]) [9] [] =
    run (initWriter (some 0))
      [Ev.write [1] [OsResp.writeError ERROR_PIPE_NOT_CONNECTED]] := by
  have h := claim2_poisoned_writer
    (run (initWriter (some 0)) [Ev.write [1] [OsResp.writeError ERROR_PIPE_NOT_CONNECTED]])
    ⟨some 0, [Ev.write [1] [OsResp.writeError ERROR_PIPE_NOT_CONNECTED]], rfl⟩
    (by decide)
  exact ⟨h.1, h.2.2.2 [9] []⟩

/-- C3: for every run in which the OS confirmed each successful completion in
full (`exact`), no error was recorded and no operation was canceled, once the
writer is drained (no operation outstanding and empty buffer) the bytes handed
to `WriteFile` across all issued operations, concatenated in issue order,
equal the concatenation of all written payloads, in order, with no reordering
and no duplication.  (That bytes are removed from the buffer head exactly as
they are confirmed is the `enq_acct`/`issued_acct` accounting of
`writeCompleted`, which frees confirmed bytes from the head.) -/
theorem claim3_write_ordering (w : PipeWriter) (hw : Reachable w)
    (hexact : w.exact = true) (herr : w.lastError = ERROR_SUCCESS)
    (hcanc : w.everCanceled = false) (hseq : w.writeSequenceStarted = false)
    (hbuf : w.writeBuffer = []) :
    bufFlat w.issued = w.enqueued := by
  have hInv := reachable_inv w hw
  have h1 := hInv.issued_acct hexact herr hcanc
  rw [hInv.no_seq_no_inflight hseq, List.append_nil] at h1
  have h2 := hInv.enq_acct herr
  rw [hbuf] at h2
  simp only [bufFlat, List.append_nil] at h2
  exact h1.trans h2

theorem claim3_witness :
    bufFlat (run (initWriter (some 0))
      [Ev.write [10, 20] [OsResp.syncSuccess 2],
       Ev.write [30] [OsResp.syncSuccess 1]]).issued =
    (run (initWriter (some 0))
      [Ev.write [10, 20] [OsResp.syncSuccess 2],
       Ev.write [30] [OsResp.syncSuccess 1]]).enqueued :=
  claim3_write_ordering
    (run (initWriter (some 0))
      [Ev.write [10, 20] [OsResp.syncSuccess 2],
       Ev.write [30] [OsResp.syncSuccess 1]])
    ⟨some 0, [Ev.write [10, 20] [OsResp.syncSuccess 2],
      Ev.write [30] [OsResp.syncSuccess 1]], rfl⟩
    (by decide) (by decide) (by decide) (by decide) (by decide)

/-- C4: `writeCompleted errorCode n` — on `ERROR_SUCCESS` it sets the
pending-notification flag, adds `n` to the pending byte count, removes exactly
the first `n` bytes from the write buffer (head first, shown on the byte
stream via `drop`) and returns `true`; on any other code it records the code
as `lastError`, clears the entire buffer, emits a diagnostic exactly when the
code is none of `ERROR_PIPE_NOT_CONNECTED`, `ERROR_OPERATION_ABORTED`,
`ERROR_NO_DATA`, and returns `false`. -/
theorem claim4_writeCompleted_spec (w : PipeWriter) (code n : Nat) :
    (code = ERROR_SUCCESS →
      writeCompleted w code n =
        (true, { w with
          bytesWrittenPending := true
          pendingBytesWrittenValue := w.pendingBytesWrittenValue + n
          writeBuffer := bufFree n w.writeBuffer
          confirmed := w.confirmed ++ (bufFlat w.writeBuffer).take n }) ∧
      bufFlat (bufFree n w.writeBuffer) = (bufFlat w.writeBuffer).drop n) ∧
    (code ≠ ERROR_SUCCESS →
      writeCompleted w code n =
        (false, { w with
          lastError := code
          writeBuffer := []
          diagnostics :=
            if code = ERROR_PIPE_NOT_CONNECTED ∨ code = ERROR_OPERATION_ABORTED ∨
                code = ERROR_NO_DATA
            then w.diagnostics
            else w.diagnostics ++ [code] })) := by
  constructor
  · intro hc
    subst hc
    exact ⟨by simp [writeCompleted], bufFlat_bufFree n w.writeBuffer⟩
  · intro hc
    have hiff : isExpectedTerminalError code = true ↔
        (code = ERROR_PIPE_NOT_CONNECTED ∨ code = ERROR_OPERATION_ABORTED ∨
          code = ERROR_NO_DATA) := by
      simp only [isExpectedTerminalError, Bool.or_eq_true, beq_iff_eq]
      exact or_assoc
    by_cases hb : code = ERROR_PIPE_NOT_CONNECTED ∨ code = ERROR_OPERATION_ABORTED ∨
        code = ERROR_NO_DATA
    · simp [writeCompleted, hc, hiff.mpr hb, hb]
    · have hbf : isExpectedTerminalError code = false := by
        rw [Bool.eq_false_iff]
        intro hcontra
        exact hb (hiff.mp hcontra)
      simp [writeCompleted, hc, hbf, hb]

theorem claim4_witness :
    (writeCompleted (initWriter none) ERROR_SUCCESS 0).1 = true ∧
    (writeCompleted (initWriter none) 5 0).2.lastError = 5 ∧
    (writeCompleted (initWriter none) 5 0).2.diagnostics = [5] ∧
    (writeCompleted (initWriter none) ERROR_NO_DATA 0).2.diagnostics = [] := by
  refine ⟨?_, ?_, ?_, ?_⟩
  · rw [((claim4_writeCompleted_spec (initWriter none) ERROR_SUCCESS 0).1 rfl).1]
  · rw [(claim4_writeCompleted_spec (initWriter none) 5 0).2 (by decide)]
  · rw [(claim4_writeCompleted_spec (initWriter none) 5 0).2 (by decide)]
    decide
  · rw [(claim4_writeCompleted_spec (initWriter none) ERROR_NO_DATA 0).2 (by decide)]
    decide

/-- C5: at most one owner-thread notification is queued at a time in every
reachable state, and in the concrete two-completion scenario (10 bytes then 5
bytes confirmed while the owner thread is busy) exactly one `bytesWritten`
notification fires and it carries the sum 15: after both completions exactly
one `WinEventAct` event is queued and nothing was emitted yet, and delivering
it emits exactly `[15]` and leaves no queued event. -/
theorem claim5_coalesced_notification :
    (∀ w : PipeWriter, Reachable w → w.postedEvents ≤ 1) ∧
    (run (initWriter (some 0))
      [Ev.write [1, 2, 3, 4, 5, 6, 7, 8, 9, 10] [OsResp.writeError ERROR_IO_PENDING],
       Ev.write [11, 12, 13, 14, 15] [],
       Ev.callback ERROR_SUCCESS 10 [OsResp.writeError ERROR_IO_PENDING],
       Ev.callback ERROR_SUCCESS 5 []]).postedEvents = 1 ∧
    (run (initWriter (some 0))
      [Ev.write [1, 2, 3, 4, 5, 6, 7, 8, 9, 10] [OsResp.writeError ERROR_IO_PENDING],
       Ev.write [11, 12, 13, 14, 15] [],
       Ev.callback ERROR_SUCCESS 10 [OsResp.writeError ERROR_IO_PENDING],
       Ev.callback ERROR_SUCCESS 5 []]).pendingBytesWrittenValue = 15 ∧
    (run (initWriter (some 0))
      [Ev.write [1, 2, 3, 4, 5, 6, 7, 8, 9, 10] [OsResp.writeError ERROR_IO_PENDING],
       Ev.write [11, 12, 13, 14, 15] [],
       Ev.callback ERROR_SUCCESS 10 [OsResp.writeError ERROR_IO_PENDING],
       Ev.callback ERROR_SUCCESS 5 []]).emitted = [] ∧
    (run (initWriter (some 0))
      [Ev.write [1, 2, 3, 4, 5, 6, 7, 8, 9, 10] [OsResp.writeError ERROR_IO_PENDING],
       Ev.write [11, 12, 13, 14, 15] [],
       Ev.callback ERROR_SUCCESS 10 [OsResp.writeError ERROR_IO_PENDING],
       Ev.callback ERROR_SUCCESS 5 [],
       Ev.deliverEvent]).emitted = [15] ∧
    (run (initWriter (some 0))
      [Ev.write [1, 2, 3, 4, 5, 6, 7, 8, 9, 10] [OsResp.writeError ERROR_IO_PENDING],
       Ev.write [11, 12, 13, 14, 15] [],
       Ev.callback ERROR_SUCCESS 10 [OsResp.writeError ERROR_IO_PENDING],
       Ev.callback ERROR_SUCCESS 5 [],
       Ev.deliverEvent]).postedEvents = 0 := by
  refine ⟨?_, by decide, by decide, by decide, by decide, by decide⟩
  intro w hw
  exact (reachable_inv w hw).posted_le

theorem claim5_witness :
    (run (initWriter (some 0))
      [Ev.write [1, 2, 3, 4, 5, 6, 7, 8, 9, 10] [OsResp.writeError ERROR_IO_PENDING],
       Ev.write [11, 12, 13, 14, 15] [],
       Ev.callback ERROR_SUCCESS 10 [OsResp.writeError ERROR_IO_PENDING],
       Ev.callback ERROR_SUCCESS 5 []]).postedEvents ≤ 1 :=
  claim5_coalesced_notification.1
    (run (initWriter (some 0))
      [Ev.write [1, 2, 3, 4, 5, 6, 7, 8, 9, 10] [OsResp.writeError ERROR_IO_PENDING],
       Ev.write [11, 12, 13, 14, 15] [],
       Ev.callback ERROR_SUCCESS 10 [OsResp.writeError ERROR_IO_PENDING],
       Ev.callback ERROR_SUCCESS 5 []])
    ⟨some 0, [Ev.write [1, 2, 3, 4, 5, 6, 7, 8, 9, 10] [OsResp.writeError ERROR_IO_PENDING],
       Ev.write [11, 12, 13, 14, 15] [],
       Ev.callback ERROR_SUCCESS 10 [OsResp.writeError ERROR_IO_PENDING],
       Ev.callback ERROR_SUCCESS 5 []], rfl⟩

/-- C6 counterexample: the claim that a `write` on a handleless, non-poisoned,
idle writer leaves the `stopped` flag unchanged is false.  On a freshly
constructed writer with no handle (`stopped = true`, `lastError = ERROR_SUCCESS`,
no write sequence started), a single `write` flips `stopped` to `false` even
though no handle is assigned: `writeImpl` executes `stopped = false` (line 155)
before the handle check (line 159). -/
theorem claim6_counterexample :
    (initWriter none).handle = none ∧
    (initWriter none).lastError = ERROR_SUCCESS ∧
    (initWriter none).writeSequenceStarted = false ∧
    (initWriter none).stopped = true ∧
    (writeImpl (initWriter none) [65] []).stopped = false := by
  decide

/-- C6 (amended): in `write`, when the writer is not poisoned and no operation
is outstanding and no handle is yet assigned, the bytes are appended to the
buffer, the writer is marked not-stopped, and every other field is left
unchanged; the pump is invoked only when a handle is assigned. -/
theorem claim6_amended_write_no_handle (w : PipeWriter) (ba : List Nat)
    (os : List OsResp) (herr : w.lastError = ERROR_SUCCESS)
    (hseq : w.writeSequenceStarted = false) (hh : w.handle = none) :
    writeImpl w ba os = { w with
      writeBuffer := bufAppend w.writeBuffer ba
      enqueued := w.enqueued ++ ba
      stopped := false } := by
  unfold writeImpl
  rw [if_neg (by simp [herr]), if_neg (by simp [hseq]), if_neg (by simp [hh])]

theorem claim6_amended_witness :
    writeImpl (initWriter none) [65] [] = { initWriter none with
      writeBuffer := bufAppend (initWriter none).writeBuffer [65]
      enqueued := (initWriter none).enqueued ++ [65]
      stopped := false } :=
  claim6_amended_write_no_handle (initWriter none) [65] [] rfl rfl rfl

/-- C7: `consumePendingAndEmit` never emits `bytesWritten` recursively from
within a prior emission's handler: the pending flag and count are zeroed
before the emit point, so after any `consumePendingAndEmit` call the pending
flag is clear, and a nested call made at that point (any value of
`allowWinActPosting`) returns `false` and emits nothing. -/
theorem claim7_no_recursive_emit (w : PipeWriter) (a a' : Bool) :
    (consumePendingAndEmit w a).2.bytesWrittenPending = false ∧
    (consumePendingAndEmit (consumePendingAndEmit w a).2 a').1 = false ∧
    (consumePendingAndEmit (consumePendingAndEmit w a).2 a').2.emitted =
      (consumePendingAndEmit w a).2.emitted := by
  have h1 := (consumePendingAndEmit_clears_pending w a).1
  have h2 := consumePendingAndEmit_of_no_pending (consumePendingAndEmit w a).2 a' h1
  exact ⟨h1, h2.1, h2.2⟩

/-- C8: `stop` is idempotent: for every writer state, calling it twice has the
same effect as calling it once — the second call returns immediately because
the `stopped` flag is already set after the first. -/
theorem claim8_stop_idempotent (w : PipeWriter) :
    stop (stop w) = stop w ∧ (stop w).stopped = true := by
  have hs : (stop w).stopped = true := by
    simp only [stop]
    by_cases hst : w.stopped = true
    · rw [if_pos hst]
      exact hst
    · rw [if_neg hst]
      split <;> rfl
  refine ⟨?_, hs⟩
  conv_lhs => rw [stop]
  rw [if_pos hs]

/-- C9: `bytesToWrite` returns the buffer size plus the pending completion
count: it also counts bytes already confirmed written by the OS but not yet
reported via `bytesWritten`, so it can be nonzero after the buffer has fully
drained, and consuming the pending notification brings it to zero. -/
theorem claim9_bytesToWrite_spec :
    (∀ w : PipeWriter,
      bytesToWrite w = bufSize w.writeBuffer + w.pendingBytesWrittenValue) ∧
    (∃ w : PipeWriter, Reachable w ∧ w.writeBuffer = [] ∧
      0 < w.pendingBytesWrittenValue ∧ 0 < bytesToWrite w ∧
      bytesToWrite (consumePendingAndEmit w true).2 = 0) := by
  refine ⟨fun w => rfl,
    ⟨run (initWriter (some 0)) [Ev.write [7] [OsResp.syncSuccess 1]],
      ⟨some 0, [Ev.write [7] [OsResp.syncSuccess 1]], rfl⟩,
      by decide, by decide, by decide, by decide⟩⟩

/-- C10: `setHandle` asserts `!stopped` (modelled by `setHandlePre`), but the
constructor initializes `stopped` to `true`; hence the assertion fails on a
freshly constructed writer with no prior `write`, and any `write` call
(which clears the flag, even when no handle is assigned) establishes it. -/
theorem claim10_setHandle_precondition :
    (∀ h : Option Nat,
      (initWriter h).stopped = true ∧ ¬ setHandlePre (initWriter h)) ∧
    (∀ (h : Option Nat) (ba : List Nat) (os : List OsResp),
      setHandlePre (writeImpl (initWriter h) ba os)) := by
  constructor
  · intro h
    exact ⟨rfl, by simp [setHandlePre, initWriter]⟩
  · intro h ba os
    unfold setHandlePre writeImpl
    rw [if_neg (by simp [initWriter]), if_neg (by simp [initWriter])]
    cases h with
    | none =>
      rw [if_neg (by simp [initWriter])]
    | some v =>
      rw [if_pos (by simp [initWriter]), startAsyncWriteLocked_stopped]

theorem claim10_witness :
    (initWriter none).stopped = true ∧
    setHandlePre (writeImpl (initWriter none) [65] []) :=
  ⟨(claim10_setHandle_precondition.1 none).1,
    claim10_setHandle_precondition.2 none [65] []⟩
